import Mathlib

/-!
# Shallow embedding of the Tech Innovation Hub intern management system

Source: `src/techhub.js`. Two classes are embedded:

* `Attachee` — an intern record owning its task list, feedback list and a
  derived performance score (constructor at lines 24–31, methods
  `validateDivision`, `assignTask`, `completeTask`, `addFeedback`,
  `calculatePerformanceScore`, `getPerformanceSummary`).
* `TaskManager` — the roster aggregator (constructor at line 128, methods
  `addAttachee`, `removeAttachee`, `getAttacheesByDivision`,
  `assignTaskToDivision`, `assignTaskToAttachee`, `addFeedbackToAttachee`,
  `generatePerformanceReport`).

Modelling conventions:
* JS numbers holding scores, counts and ids are modelled as `Nat`
  (the spec declares feedback scores as integers in [0,100]); task priority
  is modelled as `Int`.
* `Math.round(total / count)` on naturals is `roundDiv total count =
  (2 * total + count) / (2 * count)` in natural division; the lemma
  `roundDiv_eq_floor_add_half` proves this is exactly
  "floor of (total/count + 1/2)", i.e. rounding with halves going up,
  which is what `Math.round` does on non-negative values.
* `new Date().toISOString()` in `addFeedback` is an ambient clock; the
  embedding takes the timestamp as an explicit argument (the spec calls
  for an injectable clock).
* JS `Array.prototype.find` followed by in-place mutation is embedded as a
  structurally recursive update of the *first* matching element
  (`completeTasks`, `updateFirst`); `filter` is `List.filter`.
* Fallible construction (the `throw` in `validateDivision`) is embedded as
  `Except String`.
-/

namespace TechHub

/-- A task, as built by `Attachee.assignTask` (techhub.js lines 54–61). -/
structure Task where
  id : Nat
  description : String
  deadline : String
  priority : Int
  completed : Bool
  completionDate : Option String
deriving DecidableEq, Repr

/-- A feedback entry, as built by `Attachee.addFeedback` (lines 85–90). -/
structure Feedback where
  text : String
  score : Nat
  reviewer : String
  date : String
deriving DecidableEq, Repr

/-- An attachee record (constructor, lines 24–31). -/
structure Attachee where
  name : String
  email : String
  division : String
  tasks : List Task
  feedback : List Feedback
  performanceScore : Nat
deriving DecidableEq, Repr

/-- The `validDivisions` array of `Attachee.validateDivision` (line 40). -/
def validDivisions : List String :=
  ["Engineering", "Tech Programs", "Radio Support", "Hub Support"]

/-- `Attachee.validateDivision` (lines 39–45): returns the division if it
is one of the four valid options, otherwise throws. -/
def validateDivision (division : String) : Except String String :=
  if validDivisions.contains division then
    Except.ok division
  else
    Except.error ("Invalid division. Must be one of: " ++ String.intercalate ", " validDivisions)

/-- The `Attachee` constructor (lines 24–31): validates the division, then
initializes empty task and feedback lists and a zero performance score. -/
def Attachee.create (name email division : String) : Except String Attachee :=
  match validateDivision division with
  | Except.ok d =>
      Except.ok { name := name, email := email, division := d,
                  tasks := [], feedback := [], performanceScore := 0 }
  | Except.error e => Except.error e

/-- `Attachee.assignTask` (lines 53–63): appends a new task with
id = current task count + 1, completed = false, completionDate = null. -/
def Attachee.assignTask (a : Attachee) (taskDescription deadline : String)
    (priority : Int) : Attachee :=
  { a with tasks := a.tasks ++
      [{ id := a.tasks.length + 1, description := taskDescription,
         deadline := deadline, priority := priority,
         completed := false, completionDate := none }] }

/-- The effect of `this.tasks.find(t => t.id === taskId)` followed by the
in-place mutation in `completeTask` (lines 71–75): the first task whose id
matches is marked completed with the given date; later tasks — matching or
not — are untouched; if no task matches the list is unchanged. -/
def completeTasks (ts : List Task) (taskId : Nat) (completionDate : String) : List Task :=
  match ts with
  | [] => []
  | t :: rest =>
      if t.id == taskId then
        { t with completed := true, completionDate := some completionDate } :: rest
      else
        t :: completeTasks rest taskId completionDate

/-- `Attachee.completeTask` (lines 70–76). -/
def Attachee.completeTask (a : Attachee) (taskId : Nat) (completionDate : String) : Attachee :=
  { a with tasks := completeTasks a.tasks taskId completionDate }

/-- `Math.round (a / b)` for naturals `a`, `b` (`b > 0`): natural division
with halves rounding up, `(2a + b) / (2b)`. -/
def roundDiv (a b : Nat) : Nat :=
  (2 * a + b) / (2 * b)

/-- Sum of the scores of a feedback list: the `reduce` at line 100. -/
def feedbackTotal (fb : List Feedback) : Nat :=
  (fb.map Feedback.score).sum

/-- `Attachee.calculatePerformanceScore` (lines 97–102): returns unchanged
when there is no feedback, otherwise sets the score to the rounded mean of
all feedback scores. -/
def Attachee.calculatePerformanceScore (a : Attachee) : Attachee :=
  if a.feedback.length == 0 then a
  else { a with performanceScore := roundDiv (feedbackTotal a.feedback) a.feedback.length }

/-- `Attachee.addFeedback` (lines 84–92): appends a feedback entry (with
the injected clock value as its date) and recomputes the score. -/
def Attachee.addFeedback (a : Attachee) (feedbackText : String) (score : Nat)
    (reviewer : String) (date : String) : Attachee :=
  ({ a with feedback := a.feedback ++
      [{ text := feedbackText, score := score, reviewer := reviewer, date := date }]
   } : Attachee).calculatePerformanceScore

/-- The summary object returned by `getPerformanceSummary` (lines 112–120). -/
structure PerformanceSummary where
  name : String
  division : String
  performanceScore : Nat
  tasksAssigned : Nat
  tasksCompleted : Nat
  tasksPending : Nat
  feedbackCount : Nat
deriving DecidableEq, Repr

/-- `Attachee.getPerformanceSummary` (lines 108–121). -/
def Attachee.getPerformanceSummary (a : Attachee) : PerformanceSummary :=
  let completedTasks := (a.tasks.filter Task.completed).length
  let pendingTasks := a.tasks.length - completedTasks
  { name := a.name, division := a.division,
    performanceScore := a.performanceScore,
    tasksAssigned := a.tasks.length,
    tasksCompleted := completedTasks,
    tasksPending := pendingTasks,
    feedbackCount := a.feedback.length }

/-- The roster aggregator `TaskManager` (line 128). -/
structure TaskManager where
  attachees : List Attachee
deriving DecidableEq, Repr

/-- `TaskManager.addAttachee` (lines 139–143): constructs an `Attachee`
(propagating its construction failure unchanged), appends it to the roster
and returns it together with the updated manager. -/
def TaskManager.addAttachee (m : TaskManager) (name email division : String) :
    Except String (Attachee × TaskManager) :=
  match Attachee.create name email division with
  | Except.ok newAttachee =>
      Except.ok (newAttachee, { attachees := m.attachees ++ [newAttachee] })
  | Except.error e => Except.error e

/-- `TaskManager.removeAttachee` (lines 149–151). -/
def TaskManager.removeAttachee (m : TaskManager) (email : String) : TaskManager :=
  { attachees := m.attachees.filter (fun a => a.email != email) }

/-- `TaskManager.getAttacheesByDivision` (lines 158–160). -/
def TaskManager.getAttacheesByDivision (m : TaskManager) (division : String) : List Attachee :=
  m.attachees.filter (fun a => a.division == division)

/-- The effect of `this.attachees.find(a => a.email === email)` followed by
a mutation of the found record: the first attachee whose email matches is
replaced by `f` applied to it; all other records are untouched. -/
def updateFirst (email : String) (f : Attachee → Attachee) : List Attachee → List Attachee
  | [] => []
  | a :: rest =>
      if a.email == email then f a :: rest
      else a :: updateFirst email f rest

/-- `TaskManager.assignTaskToDivision` (lines 169–174): every attachee
currently in the division gets the task. -/
def TaskManager.assignTaskToDivision (m : TaskManager) (division taskDescription deadline : String)
    (priority : Int) : TaskManager :=
  { attachees := m.attachees.map (fun a =>
      if a.division == division then a.assignTask taskDescription deadline priority else a) }

/-- `TaskManager.assignTaskToAttachee` (lines 183–188). -/
def TaskManager.assignTaskToAttachee (m : TaskManager) (email taskDescription deadline : String)
    (priority : Int) : TaskManager :=
  { attachees := updateFirst email
      (fun a => a.assignTask taskDescription deadline priority) m.attachees }

/-- `TaskManager.addFeedbackToAttachee` (lines 197–202). -/
def TaskManager.addFeedbackToAttachee (m : TaskManager) (email feedbackText : String)
    (score : Nat) (reviewer date : String) : TaskManager :=
  { attachees := updateFirst email
      (fun a => a.addFeedback feedbackText score reviewer date) m.attachees }

/-- The `overallStats` record of the report (lines 214–219). -/
structure OverallStats where
  totalAttachees : Nat
  averageScore : Nat
  highestScore : Nat
  lowestScore : Nat
deriving DecidableEq, Repr

/-- The report object (lines 209–220): one list per fixed division plus
the overall statistics. -/
structure Report where
  engineering : List PerformanceSummary
  techPrograms : List PerformanceSummary
  radioSupport : List PerformanceSummary
  hubSupport : List PerformanceSummary
  overallStats : OverallStats
deriving DecidableEq, Repr

/-- `report[attachee.division].push(summary)` (line 227). The division of
every roster attachee is one of the four valid names (it was validated at
construction), so the final catch-all arm is reached only for
"Hub Support" on any roster built through the public operations. -/
def Report.pushSummary (r : Report) (division : String) (s : PerformanceSummary) : Report :=
  if division == "Engineering" then { r with engineering := r.engineering ++ [s] }
  else if division == "Tech Programs" then { r with techPrograms := r.techPrograms ++ [s] }
  else if division == "Radio Support" then { r with radioSupport := r.radioSupport ++ [s] }
  else { r with hubSupport := r.hubSupport ++ [s] }

/-- The body of the `forEach` loop of `generatePerformanceReport`
(lines 225–240), threading the report and the external accumulators
`totalScore` and `count`. -/
def reportStep (acc : Report × Nat × Nat) (attachee : Attachee) : Report × Nat × Nat :=
  match acc with
  | (report, totalScore, count) =>
    let summary := attachee.getPerformanceSummary
    let report := report.pushSummary attachee.division summary
    let report :=
      if summary.performanceScore > report.overallStats.highestScore then
        { report with overallStats :=
            { report.overallStats with highestScore := summary.performanceScore } }
      else report
    let report :=
      if summary.performanceScore < report.overallStats.lowestScore then
        { report with overallStats :=
            { report.overallStats with lowestScore := summary.performanceScore } }
      else report
    (report, totalScore + summary.performanceScore, count + 1)

/-- `TaskManager.generatePerformanceReport` (lines 208–251): the report is
initialized with empty division lists, `highestScore = 0` and
`lowestScore = 100`; a single pass folds every attachee in; afterwards the
average is set, and on an empty roster the stats are reset to all zeros. -/
def TaskManager.generatePerformanceReport (m : TaskManager) : Report :=
  let init : Report :=
    { engineering := [], techPrograms := [], radioSupport := [], hubSupport := [],
      overallStats := { totalAttachees := m.attachees.length,
                        averageScore := 0, highestScore := 0, lowestScore := 100 } }
  match m.attachees.foldl reportStep (init, 0, 0) with
  | (report, totalScore, count) =>
    if count > 0 then
      { report with overallStats :=
          { report.overallStats with averageScore := roundDiv totalScore count } }
    else
      { report with overallStats :=
          { report.overallStats with averageScore := 0, highestScore := 0, lowestScore := 0 } }

/-- Selects the division-keyed list of the report: the report always has a
key for each of the four divisions (an absent key is impossible by
construction; unknown names are mapped to the empty list). -/
def Report.divisionList (r : Report) (division : String) : List PerformanceSummary :=
  if division == "Engineering" then r.engineering
  else if division == "Tech Programs" then r.techPrograms
  else if division == "Radio Support" then r.radioSupport
  else if division == "Hub Support" then r.hubSupport
  else []

/-- A single public operation on an attachee record, for stating
reachability by sequences of public operations. `performanceSummary` is a
pure read (it returns a fresh summary object and touches nothing), so it
does not appear as a state-changing operation. -/
inductive AtOp where
  | assign (description deadline : String) (priority : Int)
  | complete (taskId : Nat) (completionDate : String)
  | feedback (text : String) (score : Nat) (reviewer date : String)
deriving DecidableEq, Repr

/-- Whether an operation is a task assignment. -/
def AtOp.isAssign : AtOp → Bool
  | AtOp.assign _ _ _ => true
  | _ => false

/-- Apply one public operation to an attachee record. -/
def Attachee.applyOp (a : Attachee) : AtOp → Attachee
  | AtOp.assign d dl p => a.assignTask d dl p
  | AtOp.complete id d => a.completeTask id d
  | AtOp.feedback t s r d => a.addFeedback t s r d

/-- Run a sequence of public operations on an attachee record. -/
def Attachee.run (a : Attachee) (ops : List AtOp) : Attachee :=
  ops.foldl Attachee.applyOp a

/-! ## Supporting lemmas -/

/-- `roundDiv a b` is exactly `Math.round (a / b)` for `b > 0`: the floor of
`a / b + 1/2`, i.e. the arithmetic quotient rounded with halves going up. -/
lemma roundDiv_eq_floor_add_half (a b : Nat) (hb : 0 < b) :
    (roundDiv a b : ℤ) = ⌊(a : ℚ) / (b : ℚ) + 1 / 2⌋ := by
  have hb' : ((b : ℚ)) ≠ 0 := Nat.cast_ne_zero.mpr hb.ne'
  have key : (((2 * a + b : ℕ) : ℚ)) / (((2 * b : ℕ) : ℚ)) = (a : ℚ) / b + 1 / 2 := by
    push_cast
    field_simp
    ring
  have h1 : roundDiv a b = ⌊(((2 * a + b : ℕ) : ℚ)) / (((2 * b : ℕ) : ℚ))⌋₊ := by
    rw [roundDiv]
    rw [Nat.floor_div_eq_div (α := ℚ) (2 * a + b) (2 * b)]
  rw [h1, key, Int.natCast_floor_eq_floor]
  positivity

/-- The performance-score invariant: the score is 0 with no feedback, and
otherwise the rounded mean of all feedback scores. -/
def scoreOk (a : Attachee) : Prop :=
  a.performanceScore =
    if a.feedback.length = 0 then 0
    else roundDiv (feedbackTotal a.feedback) a.feedback.length

lemma scoreOk_applyOp (a : Attachee) (op : AtOp) (h : scoreOk a) :
    scoreOk (a.applyOp op) := by
  cases op with
  | assign d dl p =>
      simpa [scoreOk, Attachee.applyOp, Attachee.assignTask] using h
  | complete tid cd =>
      simpa [scoreOk, Attachee.applyOp, Attachee.completeTask] using h
  | feedback t s rv dt =>
      simp [scoreOk, Attachee.applyOp, Attachee.addFeedback,
            Attachee.calculatePerformanceScore]

lemma scoreOk_run (a : Attachee) (ops : List AtOp) (h : scoreOk a) :
    scoreOk (a.run ops) := by
  induction ops generalizing a with
  | nil => exact h
  | cons op ops ih => exact ih _ (scoreOk_applyOp a op h)

lemma create_ok_elim (name email division : String) (a0 : Attachee)
    (h : Attachee.create name email division = Except.ok a0) :
    a0 = { name := name, email := email, division := division,
           tasks := [], feedback := [], performanceScore := 0 } := by
  unfold Attachee.create validateDivision at h
  by_cases hc : division ∈ validDivisions
  · simp [hc] at h
    exact h.symm
  · simp [hc] at h

lemma completeTasks_map_id (ts : List Task) (tid : Nat) (d : String) :
    (completeTasks ts tid d).map Task.id = ts.map Task.id := by
  induction ts with
  | nil => rfl
  | cons t rest ih =>
      rw [completeTasks]
      split
      · rfl
      · simp [ih]

lemma completeTasks_length (ts : List Task) (tid : Nat) (d : String) :
    (completeTasks ts tid d).length = ts.length := by
  have h := completeTasks_map_id ts tid d
  calc (completeTasks ts tid d).length
      = ((completeTasks ts tid d).map Task.id).length := (List.length_map _ _).symm
    _ = (ts.map Task.id).length := by rw [h]
    _ = ts.length := List.length_map _ _

/-- The invariant behind C7: the task ids are exactly `1 .. tasks.length`
in order. -/
def idsOk (a : Attachee) : Prop :=
  a.tasks.map Task.id = List.range' 1 a.tasks.length

lemma idsOk_applyOp (a : Attachee) (op : AtOp) (h : idsOk a) :
    idsOk (a.applyOp op) := by
  cases op with
  | assign d dl p =>
      rw [idsOk] at h ⊢
      simp only [Attachee.applyOp, Attachee.assignTask, List.map_append,
        List.length_append, List.map_cons, List.map_nil, List.length_cons,
        List.length_nil]
      rw [h, List.range'_1_concat]
      simp [Nat.add_comm]
  | complete tid cd =>
      rw [idsOk] at h ⊢
      simp only [Attachee.applyOp, Attachee.completeTask]
      rw [completeTasks_map_id, completeTasks_length]
      exact h
  | feedback t s rv dt =>
      rw [idsOk] at h ⊢
      simp only [Attachee.applyOp, Attachee.addFeedback,
        Attachee.calculatePerformanceScore]
      split
      · exact h
      · exact h

lemma idsOk_run (a : Attachee) (ops : List AtOp) (h : idsOk a) :
    idsOk (a.run ops) := by
  induction ops generalizing a with
  | nil => exact h
  | cons op ops ih => exact ih _ (idsOk_applyOp a op h)

lemma run_tasks_length (a : Attachee) (ops : List AtOp) :
    (a.run ops).tasks.length = a.tasks.length + ops.countP AtOp.isAssign := by
  induction ops generalizing a with
  | nil => simp [Attachee.run]
  | cons op ops ih =>
      have step : (a.applyOp op).tasks.length
          = a.tasks.length + (if AtOp.isAssign op then 1 else 0) := by
        cases op with
        | assign d dl p => simp [Attachee.applyOp, Attachee.assignTask, AtOp.isAssign]
        | complete tid cd =>
            simp [Attachee.applyOp, Attachee.completeTask, completeTasks_length,
              AtOp.isAssign]
        | feedback t s rv dt =>
            simp only [Attachee.applyOp, Attachee.addFeedback,
              Attachee.calculatePerformanceScore, AtOp.isAssign]
            split
            · simp
            · simp
      have : (a.run (op :: ops)) = ((a.applyOp op).run ops) := rfl
      rw [this, ih, step, List.countP_cons]
      cases hq : AtOp.isAssign op
      · simp [hq]
      · simp [hq]
        omega

/-! ## Claims -/

/-- C1: for every attachee reachable from construction by any sequence of
public operations, the performance score is 0 while the feedback list is
empty and otherwise equals the arithmetic mean of all feedback scores
rounded with halves going up; `addFeedback` recomputes it synchronously
(the invariant holds immediately after every operation) and neither
`assignTask` nor `completeTask` mutates it. -/
theorem performanceScore_invariant (name email division : String) (a0 : Attachee)
    (h : Attachee.create name email division = Except.ok a0) (ops : List AtOp) :
    ((a0.run ops).feedback = [] → (a0.run ops).performanceScore = 0) ∧
    ((a0.run ops).feedback ≠ [] →
      (((a0.run ops).performanceScore : ℤ) =
        ⌊(feedbackTotal (a0.run ops).feedback : ℚ) /
            ((a0.run ops).feedback.length : ℚ) + 1 / 2⌋)) ∧
    (∀ (b : Attachee) (d dl : String) (p : Int),
        (b.assignTask d dl p).performanceScore = b.performanceScore) ∧
    (∀ (b : Attachee) (tid : Nat) (cd : String),
        (b.completeTask tid cd).performanceScore = b.performanceScore) := by
  have h0 : scoreOk a0 := by
    rw [create_ok_elim name email division a0 h]
    simp [scoreOk]
  have hs : scoreOk (a0.run ops) := scoreOk_run a0 ops h0
  refine ⟨?_, ?_, ?_, ?_⟩
  · intro hfb
    rw [scoreOk] at hs
    simp [hfb] at hs
    exact hs
  · intro hfb
    have hlen : 0 < (a0.run ops).feedback.length := List.length_pos.mpr hfb
    rw [scoreOk] at hs
    rw [if_neg hlen.ne'] at hs
    rw [hs]
    exact roundDiv_eq_floor_add_half _ _ hlen
  · intro b d dl p
    rfl
  · intro b tid cd
    rfl

/-- Witness for C1 at a concrete attachee: created in Engineering, with
feedback scores 95 and 82 — mean 88.5, reported score 89. -/
theorem performanceScore_invariant_witness :
    let a0 : Attachee :=
      { name := "Omar", email := "omar@example.com", division := "Engineering",
        tasks := [], feedback := [], performanceScore := 0 }
    let ops : List AtOp :=
      [AtOp.feedback "excellent" 95 "Supervisor A" "t1",
       AtOp.feedback "good" 82 "Supervisor B" "t2"]
    ((a0.run ops).feedback = [] → (a0.run ops).performanceScore = 0) ∧
    ((a0.run ops).feedback ≠ [] →
      (((a0.run ops).performanceScore : ℤ) =
        ⌊(feedbackTotal (a0.run ops).feedback : ℚ) /
            ((a0.run ops).feedback.length : ℚ) + 1 / 2⌋)) ∧
    (∀ (b : Attachee) (d dl : String) (p : Int),
        (b.assignTask d dl p).performanceScore = b.performanceScore) ∧
    (∀ (b : Attachee) (tid : Nat) (cd : String),
        (b.completeTask tid cd).performanceScore = b.performanceScore) :=
  performanceScore_invariant "Omar" "omar@example.com" "Engineering" _ rfl _

/-- C7: for every attachee reachable from construction, `assignTask`
appends a task with id = current task count + 1, completed = false and no
completion date, so after `n` assignments — interleaved with any other
public operations — the task ids are exactly `1 .. n` in creation order.
The id space is per-attachee by construction: `assignTask` reads only the
receiving record's own task list. -/
theorem assignTask_dense_ids (name email division : String) (a0 : Attachee)
    (h : Attachee.create name email division = Except.ok a0) (ops : List AtOp) :
    (a0.run ops).tasks.map Task.id = List.range' 1 (ops.countP AtOp.isAssign) ∧
    (∀ (d dl : String) (p : Int),
      ((a0.run ops).assignTask d dl p).tasks
        = (a0.run ops).tasks ++
          [{ id := (a0.run ops).tasks.length + 1, description := d, deadline := dl,
             priority := p, completed := false, completionDate := none }]) := by
  have h0 : idsOk a0 := by
    rw [create_ok_elim name email division a0 h]
    simp [idsOk]
  have hids : idsOk (a0.run ops) := idsOk_run a0 ops h0
  constructor
  · rw [idsOk] at hids
    rw [hids, run_tasks_length]
    rw [create_ok_elim name email division a0 h]
    simp
  · intro d dl p
    rfl

/-- Witness for C7: two assignments interleaved with a completion and a
feedback entry give task ids `[1, 2]`. -/
theorem assignTask_dense_ids_witness :
    let a0 : Attachee :=
      { name := "Omar", email := "omar@example.com", division := "Engineering",
        tasks := [], feedback := [], performanceScore := 0 }
    let ops : List AtOp :=
      [AtOp.assign "API endpoint" "2023-06-15" 4,
       AtOp.complete 1 "2023-06-08",
       AtOp.assign "Code review" "2023-06-10" 3,
       AtOp.feedback "excellent" 95 "Supervisor A" "t1"]
    (a0.run ops).tasks.map Task.id = List.range' 1 (ops.countP AtOp.isAssign) ∧
    (∀ (d dl : String) (p : Int),
      ((a0.run ops).assignTask d dl p).tasks
        = (a0.run ops).tasks ++
          [{ id := (a0.run ops).tasks.length + 1, description := d, deadline := dl,
             priority := p, completed := false, completionDate := none }]) :=
  assignTask_dense_ids "Omar" "omar@example.com" "Engineering" _ rfl _

/-- C8: `getPerformanceSummary` reports exactly the record's name,
division and performance score, the task count, the number of completed
tasks, the pending count (assigned minus completed, which always add back
up to the assigned count) and the feedback count. It is a pure read: it is
a function of the record producing a fresh summary, so the record itself
is untouched by construction. -/
theorem getPerformanceSummary_fields (a : Attachee) :
    a.getPerformanceSummary.name = a.name ∧
    a.getPerformanceSummary.division = a.division ∧
    a.getPerformanceSummary.performanceScore = a.performanceScore ∧
    a.getPerformanceSummary.tasksAssigned = a.tasks.length ∧
    a.getPerformanceSummary.tasksCompleted = a.tasks.countP Task.completed ∧
    a.getPerformanceSummary.tasksPending
      = a.tasks.length - a.tasks.countP Task.completed ∧
    a.getPerformanceSummary.tasksCompleted + a.getPerformanceSummary.tasksPending
      = a.getPerformanceSummary.tasksAssigned ∧
    a.getPerformanceSummary.feedbackCount = a.feedback.length := by
  have hcount : a.tasks.countP Task.completed = (a.tasks.filter Task.completed).length :=
    List.countP_eq_length_filter _ _
  have hle : (a.tasks.filter Task.completed).length ≤ a.tasks.length :=
    List.length_filter_le _ _
  refine ⟨rfl, rfl, rfl, rfl, ?_, ?_, ?_, rfl⟩
  · simp [Attachee.getPerformanceSummary, hcount]
  · simp [Attachee.getPerformanceSummary, hcount]
  · simp only [Attachee.getPerformanceSummary]
    omega

lemma completeTasks_eq_set (ts : List Task) (tid : Nat) (d : String) (n : Nat)
    (hn : ts.findIdx (fun t => t.id == tid) = n) (h : n < ts.length) :
    completeTasks ts tid d
      = ts.set n { ts.get ⟨n, h⟩ with completed := true, completionDate := some d } := by
  induction ts generalizing n with
  | nil => simp at h
  | cons t rest ih =>
      rw [List.findIdx_cons] at hn
      rw [completeTasks]
      cases hp : (t.id == tid) with
      | true =>
          rw [hp] at hn
          simp only [cond_true] at hn
          subst hn
          rfl
      | false =>
          rw [hp] at hn
          simp only [cond_false] at hn
          cases n with
          | zero => cases hn
          | succ m =>
              have hm : rest.findIdx (fun t => t.id == tid) = m := by omega
              have hlt : m < rest.length := by
                simp at h
                omega
              rw [ih m hm hlt]
              rfl

lemma completeTasks_idem (ts : List Task) (tid : Nat) (d : String) :
    completeTasks (completeTasks ts tid d) tid d = completeTasks ts tid d := by
  induction ts with
  | nil => rfl
  | cons t rest ih =>
      by_cases hp : t.id == tid
      · rw [completeTasks, if_pos hp]
        have hp' :
            (({ t with completed := true, completionDate := some d } : Task).id == tid)
              = true := hp
        rw [completeTasks, if_pos hp']
      · rw [completeTasks, if_neg hp, completeTasks, if_neg hp, ih]

/-- C9: completing a task is idempotent in effect. If the attachee holds a
task with the given id (at first matching position `n`), `completeTask`
replaces exactly that task by the same task with completed = true and
completionDate = the given date — so on an already-completed task it
merely updates the completion date — and leaves every other task and every
other field of the record unchanged; repeating the call with the same id
and date changes nothing further (this holds for every record, found or
not). -/
theorem completeTask_idempotent (a : Attachee) (taskId : Nat) (d2 : String) (n : Nat)
    (hn : a.tasks.findIdx (fun t => t.id == taskId) = n) (h : n < a.tasks.length) :
    (a.completeTask taskId d2).completeTask taskId d2 = a.completeTask taskId d2 ∧
    (a.completeTask taskId d2).tasks
      = a.tasks.set n
          { a.tasks.get ⟨n, h⟩ with completed := true, completionDate := some d2 } ∧
    (a.completeTask taskId d2).name = a.name ∧
    (a.completeTask taskId d2).email = a.email ∧
    (a.completeTask taskId d2).division = a.division ∧
    (a.completeTask taskId d2).feedback = a.feedback ∧
    (a.completeTask taskId d2).performanceScore = a.performanceScore := by
  refine ⟨?_, ?_, rfl, rfl, rfl, rfl, rfl⟩
  · simp only [Attachee.completeTask, completeTasks_idem]
  · simp only [Attachee.completeTask]
    exact completeTasks_eq_set a.tasks taskId d2 n hn h

/-- Witness for C9: a record holding an already-completed task 1 and a
pending task 2; completing task 2 once or twice gives the same state. -/
theorem completeTask_idempotent_witness :
    let a : Attachee :=
      { name := "Omar", email := "omar@example.com", division := "Engineering",
        tasks := [{ id := 1, description := "t1", deadline := "d1", priority := 4,
                    completed := true, completionDate := some "2023-06-08" },
                  { id := 2, description := "t2", deadline := "d2", priority := 3,
                    completed := false, completionDate := none }],
        feedback := [], performanceScore := 0 }
    (a.completeTask 2 "2023-06-09").completeTask 2 "2023-06-09"
        = a.completeTask 2 "2023-06-09" ∧
    (a.completeTask 2 "2023-06-09").tasks
      = a.tasks.set 1
          { (a.tasks.get ⟨1, by decide⟩) with
              completed := true
              completionDate := some "2023-06-09" } ∧
    (a.completeTask 2 "2023-06-09").name = a.name ∧
    (a.completeTask 2 "2023-06-09").email = a.email ∧
    (a.completeTask 2 "2023-06-09").division = a.division ∧
    (a.completeTask 2 "2023-06-09").feedback = a.feedback ∧
    (a.completeTask 2 "2023-06-09").performanceScore = a.performanceScore :=
  completeTask_idempotent _ 2 "2023-06-09" 1 (by decide) (by decide)

lemma completeTasks_no_match (ts : List Task) (tid : Nat) (d : String)
    (h : ∀ t ∈ ts, t.id ≠ tid) : completeTasks ts tid d = ts := by
  induction ts with
  | nil => rfl
  | cons t rest ih =>
      rw [completeTasks]
      rw [if_neg]
      · rw [ih (fun u hu => h u (List.mem_cons_of_mem t hu))]
      · simp
        exact h t (List.mem_cons_self t rest)

lemma updateFirst_no_match (l : List Attachee) (email : String)
    (f : Attachee → Attachee) (h : ∀ a ∈ l, a.email ≠ email) :
    updateFirst email f l = l := by
  induction l with
  | nil => rfl
  | cons a rest ih =>
      rw [updateFirst]
      rw [if_neg]
      · rw [ih (fun b hb => h b (List.mem_cons_of_mem a hb))]
      · simp
        exact h a (List.mem_cons_self a rest)

/-- C6: the "not found" conditions are silent no-ops. `completeTask` with
an id matching no task of the record, and `assignTaskToAttachee` /
`addFeedbackToAttachee` with an email matching no roster record, leave the
whole state — the record, the roster and every record in it — exactly as
it was. -/
theorem not_found_silent_noop (a : Attachee) (taskId : Nat) (cd : String)
    (m : TaskManager) (email taskDescription deadline : String) (priority : Int)
    (feedbackText : String) (score : Nat) (reviewer date : String)
    (hts : ∀ t ∈ a.tasks, t.id ≠ taskId)
    (hm : ∀ b ∈ m.attachees, b.email ≠ email) :
    a.completeTask taskId cd = a ∧
    m.assignTaskToAttachee email taskDescription deadline priority = m ∧
    m.addFeedbackToAttachee email feedbackText score reviewer date = m := by
  refine ⟨?_, ?_, ?_⟩
  · simp only [Attachee.completeTask, completeTasks_no_match a.tasks taskId cd hts]
  · simp only [TaskManager.assignTaskToAttachee,
      updateFirst_no_match m.attachees email _ hm]
  · simp only [TaskManager.addFeedbackToAttachee,
      updateFirst_no_match m.attachees email _ hm]

/-- Witness for C6: completing an unknown task id and targeting an unknown
email change nothing on a concrete state. -/
theorem not_found_silent_noop_witness :
    let a : Attachee :=
      { name := "Omar", email := "omar@example.com", division := "Engineering",
        tasks := [{ id := 1, description := "t1", deadline := "d1", priority := 4,
                    completed := false, completionDate := none }],
        feedback := [], performanceScore := 0 }
    let m : TaskManager := { attachees := [a] }
    a.completeTask 7 "2023-06-09" = a ∧
    m.assignTaskToAttachee "nobody@example.com" "task" "2023-06-15" 2 = m ∧
    m.addFeedbackToAttachee "nobody@example.com" "fb" 90 "Sup" "t" = m :=
  not_found_silent_noop _ 7 "2023-06-09" _ "nobody@example.com" "task" "2023-06-15" 2
    "fb" 90 "Sup" "t" (by decide) (by decide)

/-- C5: constructing an attachee fails — with the error message listing
the four valid divisions — exactly when the division is not one of
{Engineering, Tech Programs, Radio Support, Hub Support}; on success the
record starts with empty task and feedback lists and score 0.
`addAttachee` propagates the construction failure unchanged and in that
case produces no updated roster (the record is not appended); on success
it returns the new record appended to the roster. -/
theorem invalidDivision_error (name email division : String) (m : TaskManager) :
    (Attachee.create name email division =
      if division ∈ ["Engineering", "Tech Programs", "Radio Support", "Hub Support"] then
        Except.ok { name := name, email := email, division := division,
                    tasks := [], feedback := [], performanceScore := 0 }
      else
        Except.error
          "Invalid division. Must be one of: Engineering, Tech Programs, Radio Support, Hub Support") ∧
    (m.addAttachee name email division =
      if division ∈ ["Engineering", "Tech Programs", "Radio Support", "Hub Support"] then
        Except.ok
          ({ name := name, email := email, division := division,
             tasks := [], feedback := [], performanceScore := 0 },
           { attachees := m.attachees ++
              [{ name := name, email := email, division := division,
                 tasks := [], feedback := [], performanceScore := 0 }] })
      else
        Except.error
          "Invalid division. Must be one of: Engineering, Tech Programs, Radio Support, Hub Support") := by
  have hmsg : "Invalid division. Must be one of: " ++ String.intercalate ", " validDivisions
      = "Invalid division. Must be one of: Engineering, Tech Programs, Radio Support, Hub Support" := by
    rfl
  by_cases hd : division ∈ validDivisions
  · have hd' : division ∈ ["Engineering", "Tech Programs", "Radio Support", "Hub Support"] := hd
    constructor
    · simp [Attachee.create, validateDivision, hd, hd']
    · simp [TaskManager.addAttachee, Attachee.create, validateDivision, hd, hd']
  · have hd' : division ∉ ["Engineering", "Tech Programs", "Radio Support", "Hub Support"] := hd
    constructor
    · simp [Attachee.create, validateDivision, hd, hd', hmsg]
    · simp [TaskManager.addAttachee, Attachee.create, validateDivision, hd, hd', hmsg]

lemma updateFirst_append_match (pre post : List Attachee) (a : Attachee)
    (email : String) (f : Attachee → Attachee)
    (hpre : ∀ b ∈ pre, b.email ≠ email) (ha : a.email = email) :
    updateFirst email f (pre ++ a :: post) = pre ++ f a :: post := by
  induction pre with
  | nil => simp [updateFirst, ha]
  | cons b rest ih =>
      rw [List.cons_append, updateFirst, if_neg, List.cons_append,
        ih (fun c hc => hpre c (List.mem_cons_of_mem b hc))]
      simp
      exact hpre b (List.mem_cons_self b rest)

/-- C10: email uniqueness is not enforced; with duplicate emails on the
roster, `assignTaskToAttachee` and `addFeedbackToAttachee` modify only the
first matching record (in roster order) and leave all later duplicates
untouched, while `removeAttachee` removes every record with that email in
one call. -/
theorem duplicate_email_semantics (pre post : List Attachee) (a : Attachee) (email : String)
    (hpre : ∀ b ∈ pre, b.email ≠ email) (ha : a.email = email)
    (taskDescription deadline : String) (priority : Int)
    (feedbackText : String) (score : Nat) (reviewer date : String) :
    TaskManager.assignTaskToAttachee
        { attachees := pre ++ a :: post } email taskDescription deadline priority
      = { attachees := pre ++ a.assignTask taskDescription deadline priority :: post } ∧
    TaskManager.addFeedbackToAttachee
        { attachees := pre ++ a :: post } email feedbackText score reviewer date
      = { attachees := pre ++ a.addFeedback feedbackText score reviewer date :: post } ∧
    TaskManager.removeAttachee { attachees := pre ++ a :: post } email
      = { attachees := pre ++ post.filter (fun b => b.email != email) } := by
  refine ⟨?_, ?_, ?_⟩
  · simp only [TaskManager.assignTaskToAttachee]
    rw [updateFirst_append_match pre post a email _ hpre ha]
  · simp only [TaskManager.addFeedbackToAttachee]
    rw [updateFirst_append_match pre post a email _ hpre ha]
  · simp only [TaskManager.removeAttachee, List.filter_append, List.filter_cons]
    have ha' : (a.email != email) = false := by simp [ha]
    rw [ha']
    simp only [Bool.false_eq_true, if_false]
    congr 1
    have hfpre : List.filter (fun b => b.email != email) pre = pre := by
      rw [List.filter_eq_self]
      intro b hb
      simp
      exact hpre b hb
    rw [hfpre]

/-- Witness for C10: a roster with two records sharing an email; the first
gets the task and the feedback, the second survives both but is removed
together with the first by `removeAttachee`. -/
theorem duplicate_email_semantics_witness :
    let a1 : Attachee :=
      { name := "Omar", email := "dup@example.com", division := "Engineering",
        tasks := [], feedback := [], performanceScore := 0 }
    let a2 : Attachee :=
      { name := "Martin", email := "dup@example.com", division := "Hub Support",
        tasks := [], feedback := [], performanceScore := 0 }
    TaskManager.assignTaskToAttachee
        { attachees := [] ++ a1 :: [a2] } "dup@example.com" "task" "2023-06-15" 2
      = { attachees := [] ++ a1.assignTask "task" "2023-06-15" 2 :: [a2] } ∧
    TaskManager.addFeedbackToAttachee
        { attachees := [] ++ a1 :: [a2] } "dup@example.com" "fb" 90 "Sup" "t"
      = { attachees := [] ++ a1.addFeedback "fb" 90 "Sup" "t" :: [a2] } ∧
    TaskManager.removeAttachee { attachees := [] ++ a1 :: [a2] } "dup@example.com"
      = { attachees := [] ++ List.filter (fun b => b.email != "dup@example.com") [a2] } :=
  duplicate_email_semantics [] [_] _ "dup@example.com" (by decide) (by decide)
    "task" "2023-06-15" 2 "fb" 90 "Sup" "t"

/-! ## Report-fold characterization -/

/-- Sum of the performance scores of a roster segment (the `totalScore`
accumulator of the report loop). -/
def scoreSum (l : List Attachee) : Nat :=
  (l.map Attachee.performanceScore).sum

/-- One step of the running maximum of the report loop (lines 233–235). -/
def maxStep (h : Nat) (a : Attachee) : Nat :=
  if a.performanceScore > h then a.performanceScore else h

/-- One step of the running minimum of the report loop (lines 237–239). -/
def minStep (lo : Nat) (a : Attachee) : Nat :=
  if a.performanceScore < lo then a.performanceScore else lo

lemma reportStep_eq (r : Report) (ts c : Nat) (a : Attachee) :
    reportStep (r, ts, c) a =
      ({ engineering := r.engineering ++
            (if a.division == "Engineering" then [a.getPerformanceSummary] else []),
         techPrograms := r.techPrograms ++
            (if a.division == "Tech Programs" then [a.getPerformanceSummary] else []),
         radioSupport := r.radioSupport ++
            (if a.division == "Radio Support" then [a.getPerformanceSummary] else []),
         hubSupport := r.hubSupport ++
            (if !(a.division == "Engineering") && !(a.division == "Tech Programs")
                && !(a.division == "Radio Support")
             then [a.getPerformanceSummary] else []),
         overallStats := { totalAttachees := r.overallStats.totalAttachees,
                           averageScore := r.overallStats.averageScore,
                           highestScore := maxStep r.overallStats.highestScore a,
                           lowestScore := minStep r.overallStats.lowestScore a } },
       ts + a.performanceScore, c + 1) := by
  by_cases h1 : a.division = "Engineering"
  · by_cases hx : r.overallStats.highestScore < a.performanceScore <;>
    by_cases hy : a.performanceScore < r.overallStats.lowestScore <;>
      simp [reportStep, Report.pushSummary, maxStep, minStep,
        Attachee.getPerformanceSummary, h1, hx, hy]
  · by_cases h2 : a.division = "Tech Programs"
    · by_cases hx : r.overallStats.highestScore < a.performanceScore <;>
      by_cases hy : a.performanceScore < r.overallStats.lowestScore <;>
        simp [reportStep, Report.pushSummary, maxStep, minStep,
          Attachee.getPerformanceSummary, h1, h2, hx, hy]
    · by_cases h3 : a.division = "Radio Support"
      · by_cases hx : r.overallStats.highestScore < a.performanceScore <;>
        by_cases hy : a.performanceScore < r.overallStats.lowestScore <;>
          simp [reportStep, Report.pushSummary, maxStep, minStep,
            Attachee.getPerformanceSummary, h1, h2, h3, hx, hy]
      · by_cases hx : r.overallStats.highestScore < a.performanceScore <;>
        by_cases hy : a.performanceScore < r.overallStats.lowestScore <;>
          simp [reportStep, Report.pushSummary, maxStep, minStep,
            Attachee.getPerformanceSummary, h1, h2, h3, hx, hy]

lemma append_ite_map_cons {α β : Type} (f : α → β) (x : List β) (c : Prop)
    [Decidable c] (a : α) (rest : List α) :
    (x ++ if c then [f a] else []) ++ rest.map f
      = x ++ (if c then a :: rest else rest).map f := by
  by_cases hc : c <;> simp [hc]

lemma foldl_reportStep_spec (l : List Attachee) (r : Report) (ts c : Nat) :
    l.foldl reportStep (r, ts, c) =
      ({ engineering := r.engineering ++
            (l.filter (fun a => a.division == "Engineering")).map Attachee.getPerformanceSummary,
         techPrograms := r.techPrograms ++
            (l.filter (fun a => a.division == "Tech Programs")).map Attachee.getPerformanceSummary,
         radioSupport := r.radioSupport ++
            (l.filter (fun a => a.division == "Radio Support")).map Attachee.getPerformanceSummary,
         hubSupport := r.hubSupport ++
            (l.filter (fun a => !(a.division == "Engineering") && !(a.division == "Tech Programs")
                && !(a.division == "Radio Support"))).map Attachee.getPerformanceSummary,
         overallStats := { totalAttachees := r.overallStats.totalAttachees,
                           averageScore := r.overallStats.averageScore,
                           highestScore := l.foldl maxStep r.overallStats.highestScore,
                           lowestScore := l.foldl minStep r.overallStats.lowestScore } },
       ts + scoreSum l, c + l.length) := by
  induction l generalizing r ts c with
  | nil => simp [scoreSum]
  | cons a l ih =>
      rw [List.foldl_cons, reportStep_eq, ih]
      simp [List.filter_cons, scoreSum, append_ite_map_cons,
        Nat.add_assoc, Nat.add_comm, Nat.add_left_comm]
      refine ⟨?_, ?_, ?_, ?_⟩ <;> (split <;> simp)

lemma generateReport_eq (m : TaskManager) :
    m.generatePerformanceReport =
      { engineering := (m.attachees.filter (fun a => a.division == "Engineering")).map
            Attachee.getPerformanceSummary,
        techPrograms := (m.attachees.filter (fun a => a.division == "Tech Programs")).map
            Attachee.getPerformanceSummary,
        radioSupport := (m.attachees.filter (fun a => a.division == "Radio Support")).map
            Attachee.getPerformanceSummary,
        hubSupport := (m.attachees.filter (fun a =>
            !(a.division == "Engineering") && !(a.division == "Tech Programs")
              && !(a.division == "Radio Support"))).map Attachee.getPerformanceSummary,
        overallStats :=
          if 0 < m.attachees.length then
            { totalAttachees := m.attachees.length,
              averageScore := roundDiv (scoreSum m.attachees) m.attachees.length,
              highestScore := m.attachees.foldl maxStep 0,
              lowestScore := m.attachees.foldl minStep 100 }
          else
            { totalAttachees := 0, averageScore := 0,
              highestScore := 0, lowestScore := 0 } } := by
  unfold TaskManager.generatePerformanceReport
  dsimp only
  rw [foldl_reportStep_spec]
  by_cases h : 0 < m.attachees.length
  · simp [h]
  · have hnil : m.attachees = [] := List.length_eq_zero.mp (by omega)
    simp [hnil]

lemma maxStep_le (s : Nat) (a : Attachee) :
    s ≤ maxStep s a ∧ a.performanceScore ≤ maxStep s a := by
  rw [maxStep]
  split <;> omega

lemma foldl_maxStep_start_le (l : List Attachee) (s : Nat) :
    s ≤ l.foldl maxStep s := by
  induction l generalizing s with
  | nil => exact Nat.le_refl s
  | cons a l ih => exact Nat.le_trans (maxStep_le s a).1 (ih (maxStep s a))

lemma le_foldl_maxStep (l : List Attachee) (s : Nat) (a : Attachee) (ha : a ∈ l) :
    a.performanceScore ≤ l.foldl maxStep s := by
  induction l generalizing s with
  | nil => cases ha
  | cons b l ih =>
      rcases List.mem_cons.mp ha with h | h
      · subst h
        exact Nat.le_trans (maxStep_le s a).2 (foldl_maxStep_start_le l (maxStep s a))
      · exact ih (maxStep s b) h

lemma foldl_maxStep_mem (l : List Attachee) (s : Nat) :
    l.foldl maxStep s = s ∨ ∃ a ∈ l, l.foldl maxStep s = a.performanceScore := by
  induction l generalizing s with
  | nil => exact Or.inl rfl
  | cons a l ih =>
      rcases ih (maxStep s a) with h | ⟨b, hb, hfold⟩
      · rw [List.foldl_cons, h, maxStep]
        split
        · exact Or.inr ⟨a, List.mem_cons_self a l, rfl⟩
        · exact Or.inl rfl
      · exact Or.inr ⟨b, List.mem_cons_of_mem a hb, hfold⟩

lemma minStep_le (s : Nat) (a : Attachee) :
    minStep s a ≤ s ∧ minStep s a ≤ a.performanceScore := by
  rw [minStep]
  split <;> omega

lemma foldl_minStep_le_start (l : List Attachee) (s : Nat) :
    l.foldl minStep s ≤ s := by
  induction l generalizing s with
  | nil => exact Nat.le_refl s
  | cons a l ih => exact Nat.le_trans (ih (minStep s a)) (minStep_le s a).1

lemma foldl_minStep_le (l : List Attachee) (s : Nat) (a : Attachee) (ha : a ∈ l) :
    l.foldl minStep s ≤ a.performanceScore := by
  induction l generalizing s with
  | nil => cases ha
  | cons b l ih =>
      rcases List.mem_cons.mp ha with h | h
      · subst h
        exact Nat.le_trans (foldl_minStep_le_start l (minStep s a)) (minStep_le s a).2
      · exact ih (minStep s b) h

lemma foldl_minStep_mem (l : List Attachee) (s : Nat) :
    l.foldl minStep s = s ∨ ∃ a ∈ l, l.foldl minStep s = a.performanceScore := by
  induction l generalizing s with
  | nil => exact Or.inl rfl
  | cons a l ih =>
      rcases ih (minStep s a) with h | ⟨b, hb, hfold⟩
      · rw [List.foldl_cons, h, minStep]
        split
        · exact Or.inr ⟨a, List.mem_cons_self a l, rfl⟩
        · exact Or.inl rfl
      · exact Or.inr ⟨b, List.mem_cons_of_mem a hb, hfold⟩

/-- C3: on an empty roster the report has empty division lists and
all-zero overall statistics — the running-minimum seed of 100 does not
survive into the result. -/
theorem generateReport_empty_roster :
    TaskManager.generatePerformanceReport { attachees := [] }
      = { engineering := [], techPrograms := [], radioSupport := [], hubSupport := [],
          overallStats := { totalAttachees := 0, averageScore := 0,
                            highestScore := 0, lowestScore := 0 } } := by
  rfl

/-- C2: on a non-empty roster (whose scores lie in the documented 0–100
range), the overall statistics report the roster size, the mean of all
performance scores rounded with halves going up, the maximum score and
the minimum score; in particular when every score is 100 the reported
lowest score is 100. -/
theorem generateReport_overall_stats (m : TaskManager)
    (hne : m.attachees ≠ [])
    (hbound : ∀ a ∈ m.attachees, a.performanceScore ≤ 100) :
    (m.generatePerformanceReport).overallStats.totalAttachees = m.attachees.length ∧
    (((m.generatePerformanceReport).overallStats.averageScore : ℤ)
        = ⌊(scoreSum m.attachees : ℚ) / (m.attachees.length : ℚ) + 1 / 2⌋) ∧
    (∃ a ∈ m.attachees,
      (m.generatePerformanceReport).overallStats.highestScore = a.performanceScore) ∧
    (∀ a ∈ m.attachees,
      a.performanceScore ≤ (m.generatePerformanceReport).overallStats.highestScore) ∧
    (∃ a ∈ m.attachees,
      (m.generatePerformanceReport).overallStats.lowestScore = a.performanceScore) ∧
    (∀ a ∈ m.attachees,
      (m.generatePerformanceReport).overallStats.lowestScore ≤ a.performanceScore) ∧
    ((∀ a ∈ m.attachees, a.performanceScore = 100) →
      (m.generatePerformanceReport).overallStats.lowestScore = 100) := by
  have hlen : 0 < m.attachees.length := List.length_pos.mpr hne
  rw [generateReport_eq]
  simp only [if_pos hlen]
  obtain ⟨hd, hdmem⟩ : ∃ hd, hd ∈ m.attachees := by
    cases hl : m.attachees with
    | nil => exact absurd hl hne
    | cons x xs => exact ⟨x, hl ▸ List.mem_cons_self x xs⟩
  refine ⟨trivial, ?_, ?_, ?_, ?_, ?_, ?_⟩
  · exact roundDiv_eq_floor_add_half _ _ hlen
  · rcases foldl_maxStep_mem m.attachees 0 with h | h
    · refine ⟨hd, hdmem, ?_⟩
      have := le_foldl_maxStep m.attachees 0 hd hdmem
      omega
    · exact h
  · exact fun a ha => le_foldl_maxStep m.attachees 0 a ha
  · rcases foldl_minStep_mem m.attachees 100 with h | h
    · refine ⟨hd, hdmem, ?_⟩
      have h1 := foldl_minStep_le m.attachees 100 hd hdmem
      have h2 := hbound hd hdmem
      omega
    · exact h
  · exact fun a ha => foldl_minStep_le m.attachees 100 a ha
  · intro hall
    rcases foldl_minStep_mem m.attachees 100 with h | h
    · exact h
    · rcases h with ⟨a, ha, hfold⟩
      rw [hfold, hall a ha]

/-- A concrete reachable roster used by the witnesses below: Omar and
Martin in Engineering with scores 95 and 82 and Mary in Tech Programs
with score 98 (the spec's end-to-end example). -/
def exampleRoster : TaskManager :=
  { attachees :=
      [{ name := "Omar Haitham", email := "omarhaitham@example.com",
         division := "Engineering", tasks := [],
         feedback := [{ text := "Excellent work!", score := 95,
                        reviewer := "Supervisor A", date := "t1" }],
         performanceScore := 95 },
       { name := "Martin John", email := "martin@example.com",
         division := "Engineering", tasks := [],
         feedback := [{ text := "Good progress", score := 82,
                        reviewer := "Supervisor B", date := "t2" }],
         performanceScore := 82 },
       { name := "Mary Brown", email := "maryb@example.com",
         division := "Tech Programs", tasks := [],
         feedback := [{ text := "Outstanding", score := 98,
                        reviewer := "Supervisor C", date := "t3" }],
         performanceScore := 98 }] }

/-- Witness for C2 on the example roster: 3 attachees, scores 95/82/98. -/
theorem generateReport_overall_stats_witness :
    (exampleRoster.generatePerformanceReport).overallStats.totalAttachees
        = exampleRoster.attachees.length ∧
    (((exampleRoster.generatePerformanceReport).overallStats.averageScore : ℤ)
        = ⌊(scoreSum exampleRoster.attachees : ℚ) /
            (exampleRoster.attachees.length : ℚ) + 1 / 2⌋) ∧
    (∃ a ∈ exampleRoster.attachees,
      (exampleRoster.generatePerformanceReport).overallStats.highestScore
        = a.performanceScore) ∧
    (∀ a ∈ exampleRoster.attachees,
      a.performanceScore
        ≤ (exampleRoster.generatePerformanceReport).overallStats.highestScore) ∧
    (∃ a ∈ exampleRoster.attachees,
      (exampleRoster.generatePerformanceReport).overallStats.lowestScore
        = a.performanceScore) ∧
    (∀ a ∈ exampleRoster.attachees,
      (exampleRoster.generatePerformanceReport).overallStats.lowestScore
        ≤ a.performanceScore) ∧
    ((∀ a ∈ exampleRoster.attachees, a.performanceScore = 100) →
      (exampleRoster.generatePerformanceReport).overallStats.lowestScore = 100) :=
  generateReport_overall_stats exampleRoster (by decide) (by decide)

/-- C4: for every roster whose records carry valid divisions (as every
record built through the public constructor does) and every one of the
four fixed divisions, the report contains a list under that division —
empty when the division has no members, never absent — and it equals the
`getPerformanceSummary` results of exactly the attachees of that division
in roster order. -/
theorem generateReport_division_lists (m : TaskManager)
    (hvalid : ∀ a ∈ m.attachees, a.division ∈ validDivisions)
    (division : String) (hd : division ∈ validDivisions) :
    (m.generatePerformanceReport).divisionList division
      = (m.getAttacheesByDivision division).map Attachee.getPerformanceSummary := by
  rw [generateReport_eq]
  simp only [validDivisions, List.mem_cons, List.not_mem_nil, or_false] at hd
  rcases hd with h | h | h | h <;> subst h <;>
    simp only [TaskManager.getAttacheesByDivision, Report.divisionList]
  · rfl
  · rfl
  · rfl
  · simp only [show (("Hub Support" == "Engineering") = false) from rfl,
      show (("Hub Support" == "Tech Programs") = false) from rfl,
      show (("Hub Support" == "Radio Support") = false) from rfl,
      show (("Hub Support" == "Hub Support") = true) from rfl]
    simp only [Bool.false_eq_true, if_false, if_true]
    congr 1
    apply List.filter_congr
    intro a ha
    have h' := hvalid a ha
    simp only [validDivisions, List.mem_cons, List.not_mem_nil, or_false] at h'
    rcases h' with h | h | h | h <;> simp [h]

/-- Witness for C4 on the example roster: the Radio Support division has
no members and yields the empty list (present, not absent). -/
theorem generateReport_division_lists_witness :
    (exampleRoster.generatePerformanceReport).divisionList "Radio Support"
      = (exampleRoster.getAttacheesByDivision "Radio Support").map
          Attachee.getPerformanceSummary :=
  generateReport_division_lists exampleRoster (by decide) "Radio Support" (by decide)

end TechHub
